import Mathlib

/-!
# Work Tracking Engine — shallow embedding

A shallow embedding of the OpenCTI work-tracking engine (`domain/work.js`):
job creation, progress/completion reporting, deletion, the retention scan and
the export-progress projection, together with proofs of the specified
properties.

The engine code is embedded function by function.  The two stores it talks to
(the ElasticSearch record store and the Redis counter store) are not part of
the excerpt; their primitives (`elPaginate`, `elUpdate`, `elDeleteInstanceIds`,
`elLoadByIds`, `elIndex`, `el.search`, `redisCreateWork`, `redisGetWork`,
`redisDeleteWork`, `redisUpdateWorkFigures`) are modelled from the spec's
external-interface section (§6).  Timestamps are epoch milliseconds (`Nat`).
-/

namespace WorkEngine

/-- One entry of a job's `messages` or `errors` log: the painless map literal
`["timestamp": …, "message": …, "source": …]`.  Only `reportActionImport`
writes a `source`; the other reporting paths append entries without one. -/
structure LogEntry where
  timestamp : Nat
  message : String
  source : Option String
deriving DecidableEq, Repr

/-- The durable job record, exactly the shape built by `createWork`. -/
structure WorkRecord where
  internal_id : String
  timestamp : Nat
  name : String
  entity_type : String
  event_type : String
  event_source_id : String
  user_id : String
  connector_id : String
  status : String
  received_time : Option Nat
  processed_time : Option Nat
  completed_time : Option Nat
  completed_number : Nat
  messages : List LogEntry
  errors : List LogEntry
  updated_at : Option Nat
deriving DecidableEq, Repr

/-- The ephemeral counter record (`workTracing`) kept in the counter store. -/
structure WorkCounter where
  internal_id : String
  import_expected_number : Nat
  import_processed_number : Nat
deriving DecidableEq, Repr

/-- The `errorData = {error, source}` argument of `reportActionImport`. -/
structure ErrorData where
  error : String
  source : String
deriving DecidableEq, Repr

/-- A connector, as far as the engine reads it: `connector.id` selects the
retention query, `connector.internal_id` is stored on created jobs,
`connector.connector_type` selects the retention horizon and the job's
`event_type`. -/
structure Connector where
  id : String
  internal_id : String
  connector_type : String
  name : String
deriving DecidableEq, Repr

/-- The combined state of the two stores: the job records of the history
index and the counter records of the counter store. -/
structure EngineState where
  works : List WorkRecord
  counters : List WorkCounter
deriving DecidableEq, Repr

def ENTITY_TYPE_WORK : String := "work"

def CONNECTOR_INTERNAL_ENRICHMENT : String := "INTERNAL_ENRICHMENT"

def CONNECTOR_INTERNAL_EXPORT_FILE : String := "INTERNAL_EXPORT_FILE"

/-- Modelled from the spec: CounterStore `get(jobId) -> {expected, processed}`
(`redisGetWork`, whose body is outside the excerpt). -/
def redisGetWork (counters : List WorkCounter) (workId : String) : Option WorkCounter :=
  counters.find? (fun c => c.internal_id == workId)

/-- Modelled from the spec: CounterStore `create(jobId, expected, processed)`
(`redisCreateWork`, outside the excerpt). -/
def redisCreateWork (counters : List WorkCounter) (c : WorkCounter) : List WorkCounter :=
  counters ++ [c]

/-- Modelled from the spec: CounterStore `delete(jobId | [jobId...])`
(`redisDeleteWork`, outside the excerpt); deleting an absent key is a no-op. -/
def redisDeleteWork (counters : List WorkCounter) (ids : List String) : List WorkCounter :=
  counters.filter (fun c => !(ids.contains c.internal_id))

/-- Modelled from the spec: the atomic CounterStore
`incrementAndCompare(jobId) -> {isComplete, total}` (`redisUpdateWorkFigures`,
outside the excerpt): increment `processedCount` and report, in the same
atomic operation, whether the new `processedCount` equals `expectedCount`,
together with the new total.  `none` when no counter exists for the job. -/
def redisUpdateWorkFigures (counters : List WorkCounter) (workId : String) :
    Option (Bool × Nat × List WorkCounter) :=
  match redisGetWork counters workId with
  | none => none
  | some c =>
    let total := c.import_processed_number + 1
    some (total == c.import_expected_number, total,
      counters.map (fun d =>
        if d.internal_id == workId
        then { d with import_processed_number := d.import_processed_number + 1 }
        else d))

/-- Modelled from the spec: WorkStore `getById(jobId) -> record | null`
(`elLoadByIds` on the history index, outside the excerpt). -/
def elLoadByIds (works : List WorkRecord) (workId : String) : Option WorkRecord :=
  works.find? (fun w => w.internal_id == workId)

/-- Modelled from the spec: WorkStore `insert(record)` (`elIndex`, outside the
excerpt). -/
def elIndex (works : List WorkRecord) (w : WorkRecord) : List WorkRecord :=
  works ++ [w]

/-- Modelled from the spec: WorkStore `atomicUpdate(jobId, scriptBody, params)`
(`elUpdate`, outside the excerpt): the painless script is a single atomic
read-modify-write of the matching record. -/
def elUpdate (works : List WorkRecord) (workId : String)
    (script : WorkRecord → WorkRecord) : List WorkRecord :=
  works.map (fun w => if w.internal_id == workId then script w else w)

/-- Modelled from the spec: WorkStore `deleteByRecords([record...])`
(`elDeleteInstanceIds`, outside the excerpt), here keyed by the records'
internal ids. -/
def elDeleteInstanceIds (works : List WorkRecord) (ids : List String) : List WorkRecord :=
  works.filter (fun w => !(ids.contains w.internal_id))

/-- Insert a record into a list kept sorted by `key` descending (ties keep
their relative order, mirroring a stable store-side sort). -/
def insertDescBy (key : WorkRecord → Nat) (w : WorkRecord) :
    List WorkRecord → List WorkRecord
  | [] => [w]
  | x :: xs => if key x ≤ key w then w :: x :: xs else x :: insertDescBy key w xs

/-- Sort by `key` descending (stable insertion sort). -/
def sortDescBy (key : WorkRecord → Nat) : List WorkRecord → List WorkRecord
  | [] => []
  | x :: xs => insertDescBy key x (sortDescBy key xs)

/-- Modelled from the spec: WorkStore
`paginate(filters, orderBy, orderMode = desc, first)` (`elPaginate`, outside
the excerpt): the filtered records, sorted by the order key descending, first
`first` of them. -/
def elPaginate (works : List WorkRecord) (filt : WorkRecord → Bool)
    (key : WorkRecord → Nat) (first : Nat) : List WorkRecord :=
  (sortDescBy key (works.filter filt)).take first

/-- Modelled from the spec: `sinceNowInMinutes` of `utils/format` (outside the
excerpt): minutes elapsed between a stored timestamp and now. -/
def sinceNowInMinutes (nowT : Nat) (t : Option Nat) : Nat :=
  (nowT - t.getD nowT) / 60000

/-- `metaData` of a progress-file descriptor. -/
structure FileMetaData where
  messages : List LogEntry
  errors : List LogEntry
deriving DecidableEq, Repr

/-- The lightweight progress-file descriptor built by `workToExportFile`. -/
structure ExportFile where
  id : String
  name : String
  size : Nat
  lastModified : Option Nat
  lastModifiedSinceMin : Nat
  uploadStatus : String
  metaData : FileMetaData
deriving DecidableEq, Repr

/-- `workToExportFile(work)`. -/
def workToExportFile (nowT : Nat) (work : WorkRecord) : ExportFile :=
  { id := work.internal_id
    name := if work.name == "" then "Unknown" else work.name
    size := 0
    lastModified := work.updated_at
    lastModifiedSinceMin := sinceNowInMinutes nowT work.updated_at
    uploadStatus := work.status
    metaData := { messages := work.messages, errors := work.errors } }

/-- `worksForSource(sourceId, args)`: paginate the history index over works of
the source (optionally of one event type), ordered by `timestamp` descending.
The caller-supplied page size `first` defaults to 10 at every call site below,
as in the source. -/
def worksForSource (st : EngineState) (sourceId : String) (type? : Option String)
    (first : Nat) : List WorkRecord :=
  elPaginate st.works
    (fun w => w.entity_type == ENTITY_TYPE_WORK && w.event_source_id == sourceId &&
      (match type? with | some t => w.event_type == t | none => true))
    (fun w => w.timestamp) first

/-- `loadExportWorksAsProgressFiles(sourceId)`. -/
def loadExportWorksAsProgressFiles (st : EngineState) (sourceId : String)
    (nowT : Nat) : List ExportFile :=
  let works := worksForSource st sourceId (some CONNECTOR_INTERNAL_EXPORT_FILE) 10
  let filterSuccessCompleted :=
    works.filter (fun w => w.status != "complete" || decide (0 < w.errors.length))
  filterSuccessCompleted.map (workToExportFile nowT)

/-- `loadWorkById(workId)` (the JS also `R.assoc`s an `id` field onto the
result, which adds nothing to the modelled record; on a missing record the JS
value is a stub `{id}` with no `internal_id`, rendered here as `none`). -/
def loadWorkById (st : EngineState) (workId : String) : Option WorkRecord :=
  elLoadByIds st.works workId

/-- `deleteWorkRaw(work)`: delete the record and its counter.  The argument is
the `work.internal_id` read by the JS — `none` models the `undefined` read off
the stub returned by `loadWorkById` for a missing record, in which case, per
the spec's error-handling section, both store deletions are no-op successes. -/
def deleteWorkRaw (st : EngineState) (workInternalId : Option String) : EngineState :=
  match workInternalId with
  | some iid =>
    { works := elDeleteInstanceIds st.works [iid]
      counters := redisDeleteWork st.counters [iid] }
  | none => st

/-- `deleteWork(workId)`. -/
def deleteWork (st : EngineState) (workId : String) : EngineState :=
  deleteWorkRaw st ((loadWorkById st workId).map (fun w => w.internal_id))

/-- `deleteWorkForFile(fileId)`: delete every work returned by
`worksForSource(fileId)` — which paginates with its default `first = 10`. -/
def deleteWorkForFile (st : EngineState) (fileId : String) : EngineState :=
  let works := worksForSource st fileId none 10
  works.foldl (fun s w => deleteWorkRaw s (some w.internal_id)) st

def dayMs : Nat := 86400000

/-- The retention horizon `now-2d/d` (enrichment connectors) or `now-30d/d`
(all others): subtract the window from now, then round down to the day, as ES
date math does. -/
def rangeToKeep (connector : Connector) (nowT : Nat) : Nat :=
  if connector.connector_type == CONNECTOR_INTERNAL_ENRICHMENT
  then ((nowT - 2 * dayMs) / dayMs) * dayMs
  else ((nowT - 30 * dayMs) / dayMs) * dayMs

/-- The retention query of `deleteOldCompletedWorks`: same connector,
`status = "complete"`, `completed_time` at or before the horizon (a record
with no `completed_time` matches no range query). -/
def retentionMatches (connectorId : String) (horizon : Nat) (w : WorkRecord) : Bool :=
  w.connector_id == connectorId && w.status == "complete" &&
    (match w.completed_time with | some t => decide (t ≤ horizon) | none => false)

/-- The `completed_time` sort key of the retention scan. -/
def completedKey (w : WorkRecord) : Nat :=
  w.completed_time.getD 0

/-- Modelled from the spec: one `el.search` page of the retention scan
(`el.search`, outside the excerpt): the matching records, keyset-constrained
strictly past the cursor (`search_after` on a descending sort returns records
whose sort key is strictly smaller; `searchAfter = 0` models the unset initial
`''`, which the JS truthiness test skips), sorted by `completed_time`
descending, at most 500 of them. -/
def retentionPage (connectorId : String) (horizon : Nat) (searchAfter : Nat)
    (works : List WorkRecord) : List WorkRecord :=
  let base := works.filter (fun w =>
    retentionMatches connectorId horizon w &&
      (searchAfter == 0 || decide (completedKey w < searchAfter)))
  (sortDescBy completedKey base).take 500

/-- The cursor-paginated scan-and-delete loop of `deleteOldCompletedWorks`,
structurally recursive on a fuel bound: fetch a page, delete the page's
counter records and job records, advance the cursor to the last record's sort
key, stop on an empty page.  Every non-final iteration deletes at least one
job record, so any fuel exceeding the number of stored job records computes
the loop's fixpoint (`deleteOldLoopFuel_congr` below). -/
def deleteOldLoopFuel (connectorId : String) (horizon : Nat) :
    Nat → Nat → EngineState → EngineState
  | 0, _, st => st
  | fuel + 1, searchAfter, st =>
    match retentionPage connectorId horizon searchAfter st.works with
    | [] => st
    | hit :: rest =>
      deleteOldLoopFuel connectorId horizon fuel
        (completedKey ((hit :: rest).getLast (by simp)))
        { works := elDeleteInstanceIds st.works ((hit :: rest).map (fun w => w.internal_id))
          counters := redisDeleteWork st.counters ((hit :: rest).map (fun w => w.internal_id)) }

/-- The `while (hasNextPage)` loop, with enough fuel to run to completion. -/
def deleteOldLoop (connectorId : String) (horizon : Nat) (searchAfter : Nat)
    (st : EngineState) : EngineState :=
  deleteOldLoopFuel connectorId horizon (st.works.length + 1) searchAfter st

/-- `deleteOldCompletedWorks(connector)`. -/
def deleteOldCompletedWorks (connector : Connector) (nowT : Nat)
    (st : EngineState) : EngineState :=
  deleteOldLoop connector.id (rangeToKeep connector nowT) 0 st

/-- The `work` object literal built by `createWork`. -/
def newWorkRecord (userId : String) (connector : Connector) (friendlyName : String)
    (sourceId : String) (receivedTime : Option Nat) (workId : String)
    (nowT : Nat) : WorkRecord :=
  { internal_id := workId
    timestamp := nowT
    name := friendlyName
    entity_type := ENTITY_TYPE_WORK
    event_type := connector.connector_type
    event_source_id := sourceId
    user_id := userId
    connector_id := connector.internal_id
    status := if receivedTime.isSome then "progress" else "wait"
    received_time := receivedTime
    processed_time := none
    completed_time := none
    completed_number := 0
    messages := []
    errors := []
    updated_at := none }

/-- The `workTracing` counter literal built by `createWork`. -/
def newWorkTracing (workId : String) : WorkCounter :=
  { internal_id := workId, import_expected_number := 0, import_processed_number := 0 }

/-- `createWork(user, connector, friendlyName, sourceId, {receivedTime?})`:
run the retention scan, then insert the counter record and the job record,
and re-read the created job.  `workId` stands for the fresh id issued by the
external `generateWorkId`. -/
def createWork (st : EngineState) (userId : String) (connector : Connector)
    (friendlyName : String) (sourceId : String) (receivedTime : Option Nat)
    (workId : String) (nowT : Nat) : EngineState × Option WorkRecord :=
  let st1 := deleteOldCompletedWorks connector nowT st
  let work := newWorkRecord userId connector friendlyName sourceId receivedTime workId nowT
  let st2 : EngineState :=
    { works := elIndex st1.works work
      counters := redisCreateWork st1.counters (newWorkTracing workId) }
  (st2, loadWorkById st2 workId)

/-- `isWorkCompleted(workId)`: a plain read of the counter, complete iff the
processed and expected numbers are equal, total = processed number.  `none`
when no counter exists (the JS destructuring of a null read would throw). -/
def isWorkCompleted (st : EngineState) (workId : String) : Option (Bool × Nat) :=
  (redisGetWork st.counters workId).map
    (fun c => (c.import_processed_number == c.import_expected_number,
               c.import_processed_number))

/-- The painless script of `reportActionImport`: when complete, set
`status = "complete"`, `completed_number = total`, `completed_time = now`;
when `errorData` is present, append `{timestamp, message: error, source}` to
`errors` — both, when applicable, in this one write. -/
def reportActionWrite (isComplete : Bool) (total : Nat) (errorData : Option ErrorData)
    (nowT : Nat) (w : WorkRecord) : WorkRecord :=
  let w1 :=
    if isComplete
    then { w with status := "complete", completed_number := total,
                  completed_time := some nowT }
    else w
  match errorData with
  | some ed =>
    { w1 with errors := w1.errors ++
        [{ timestamp := nowT, message := ed.error, source := some ed.source }] }
  | none => w1

/-- `reportActionImport(user, workId, errorData)`: atomically increment and
compare the counter; if that reports completion or `errorData` is present,
apply the single update script; otherwise do not touch the job record.
`none` when no counter exists for the job. -/
def reportActionImport (st : EngineState) (workId : String)
    (errorData : Option ErrorData) (nowT : Nat) : Option EngineState :=
  match redisUpdateWorkFigures st.counters workId with
  | none => none
  | some (isComplete, total, counters2) =>
    if isComplete || errorData.isSome
    then some { works := elUpdate st.works workId
                  (reportActionWrite isComplete total errorData nowT)
                counters := counters2 }
    else some { works := st.works, counters := counters2 }

/-- `isNotEmptyField` of `database/utils` on an optional message: present and
not the empty string. -/
def isNotEmptyField (message : Option String) : Bool :=
  match message with
  | some m => m != ""
  | none => false

/-- The painless script of `updateReceivedTime`: unconditionally set
`status = "progress"` and `received_time = now`; append the message to
`messages` when non-empty. -/
def receivedScript (message : Option String) (nowT : Nat) (w : WorkRecord) : WorkRecord :=
  let w1 := { w with status := "progress", received_time := some nowT }
  if isNotEmptyField message
  then { w1 with messages := w1.messages ++
          [{ timestamp := nowT, message := message.getD "", source := none }] }
  else w1

/-- `updateReceivedTime(user, workId, message)`. -/
def updateReceivedTime (st : EngineState) (workId : String) (message : Option String)
    (nowT : Nat) : EngineState :=
  { st with works := elUpdate st.works workId (receivedScript message nowT) }

/-- The painless script of `updateProcessedTime`: set `processed_time = now`;
when the counter read said complete, also set `status = "complete"`,
`completed_number = total` and `completed_time` to the same timestamp; when
the message is non-empty, append it to `errors` (if `inError`) or `messages`
— all in this one write. -/
def processedScript (isComplete : Bool) (total : Nat) (message : Option String)
    (inError : Bool) (nowT : Nat) (w : WorkRecord) : WorkRecord :=
  let w1 := { w with processed_time := some nowT }
  let w2 :=
    if isComplete
    then { w1 with status := "complete", completed_number := total,
                   completed_time := some nowT }
    else w1
  if isNotEmptyField message then
    if inError
    then { w2 with errors := w2.errors ++
            [{ timestamp := nowT, message := message.getD "", source := none }] }
    else { w2 with messages := w2.messages ++
            [{ timestamp := nowT, message := message.getD "", source := none }] }
  else w2

/-- `updateProcessedTime(user, workId, message, inError)`: read the counter,
then apply the single update script.  `none` when no counter exists. -/
def updateProcessedTime (st : EngineState) (workId : String) (message : Option String)
    (inError : Bool) (nowT : Nat) : Option EngineState :=
  match isWorkCompleted st workId with
  | none => none
  | some (isComplete, total) =>
    some { st with
      works := elUpdate st.works workId
        (processedScript isComplete total message inError nowT) }

/-- The spec's exclusion rule for the export-progress projection, as written:
a job is excluded iff `status == Complete AND errors.length == 0`; this
predicate keeps everything else.  Compared below against the filter the
source code applies. -/
def specExportKeeps (w : WorkRecord) : Bool :=
  !(w.status == "complete" && w.errors.isEmpty)

/-- Rank of a status along the lifecycle `wait → progress → complete`. -/
def statusRank (s : String) : Nat :=
  if s == "wait" then 0
  else if s == "progress" then 1
  else if s == "complete" then 2
  else 0

/-- One concurrent `reportActionImport` call, reduced to what reaches the job
record: the `{isComplete, total}` result its atomic counter increment
returned, its `errorData`, and its timestamp. -/
structure ActionEvent where
  isComplete : Bool
  total : Nat
  errorData : Option ErrorData
  time : Nat
deriving DecidableEq, Repr

/-- The atomic job-record write one call performs.  When the call neither
completed the counter nor carries error data this is the identity, matching
the source's skipped `elUpdate`. -/
def applyActionEvent (w : WorkRecord) (e : ActionEvent) : WorkRecord :=
  reportActionWrite e.isComplete e.total e.errorData e.time w

/-- The `{isComplete, total}` results handed out by `n` serialized atomic
`incrementAndCompare` operations on a counter that starts at
`processed = p0` with a fixed `expected`: the k-th increment (in the order the
counter store serialized them) returns total `p0 + k + 1`, and completion iff
that total equals `expected`. -/
def actionResults (expected p0 n : Nat) : List (Bool × Nat) :=
  (List.range n).map (fun k => (p0 + k + 1 == expected, p0 + k + 1))

/-! Concrete records and states used by the scenarios below. -/

/-- A job record with the given identifying fields and neutral other fields. -/
def mkWork (iid : String) (ts : Nat) (etype : String) (sourceId : String)
    (cid : String) (status : String) (ctime : Option Nat) : WorkRecord :=
  { internal_id := iid
    timestamp := ts
    name := "n"
    entity_type := ENTITY_TYPE_WORK
    event_type := etype
    event_source_id := sourceId
    user_id := "u"
    connector_id := cid
    status := status
    received_time := none
    processed_time := none
    completed_time := ctime
    completed_number := 0
    messages := []
    errors := []
    updated_at := none }

/-- 501 completed jobs of one enrichment connector, all sharing the same
`completed_time` (an exact tie on the retention scan's sort key), with
pairwise distinct internal ids. -/
def tieW (i : Nat) : WorkRecord :=
  mkWork (String.mk (List.replicate i 'a')) 0 CONNECTOR_INTERNAL_ENRICHMENT
    "s" "c" "complete" (some 5)

def tieState : EngineState := ⟨(List.range 501).map tieW, []⟩

def tieConn : Connector := ⟨"c", "c", CONNECTOR_INTERNAL_ENRICHMENT, "n"⟩

/-- Eleven jobs sharing one `event_source_id`, with distinct ids and distinct
timestamps (job `i` created at time `i`), each with its paired counter. -/
def srcW (i : Nat) : WorkRecord :=
  mkWork (String.mk (List.replicate i 'b')) i "T" "src1" "c" "wait" none

def srcState : EngineState :=
  ⟨(List.range 11).map srcW,
   (List.range 11).map (fun i => ⟨String.mk (List.replicate i 'b'), 0, 0⟩)⟩

/-- A job whose status is already `complete`. -/
def doneW : WorkRecord := mkWork "w1" 1 "T" "s" "c" "complete" (some 5)

/-- A long-expired completed job of connector `c1`. -/
def retW1 : WorkRecord := mkWork "r1" 0 "T" "s" "c1" "complete" (some 5)

/-- A still-waiting job of connector `c1`, as old as `retW1`. -/
def retW2 : WorkRecord := mkWork "r2" 0 "T" "s" "c1" "wait" none

def retState : EngineState := ⟨[retW1, retW2], []⟩

/-- A completed export job with no errors (excluded by the projection). -/
def expDoneW : WorkRecord := mkWork "e1" 2 CONNECTOR_INTERNAL_EXPORT_FILE "s" "c" "complete" none

/-- A still-waiting export job (retained by the projection). -/
def expWaitW : WorkRecord := mkWork "e2" 1 CONNECTOR_INTERNAL_EXPORT_FILE "s" "c" "wait" none

def expState : EngineState := ⟨[expDoneW, expWaitW], []⟩

def emptyState : EngineState := ⟨[], []⟩

def impConn : Connector := ⟨"c1", "c1", "INTERNAL_IMPORT_FILE", "n"⟩

/-- A waiting job with a counter expecting one more item (`expected = 1`,
`processed = 0`). -/
def waitW : WorkRecord := mkWork "w1" 1 "T" "s" "c" "wait" none

def oneToGoState : EngineState := ⟨[waitW], [⟨"w1", 1, 0⟩]⟩

/-- A job whose counter already reads `processed = expected = 2`. -/
def evenState : EngineState := ⟨[waitW], [⟨"w1", 2, 2⟩]⟩

/-- What `updateProcessedTime evenState "w1" none false 9` turns `waitW` into. -/
def procDoneW : WorkRecord :=
  { waitW with processed_time := some 9, status := "complete", completed_number := 2, completed_time := some 9 }

/-- What `reportActionImport oneToGoState "w1" none 4` turns `waitW` into. -/
def actDoneW : WorkRecord :=
  { waitW with status := "complete", completed_number := 1, completed_time := some 4 }

/-! ## Support lemmas -/

lemma mem_insertDescBy {key : WorkRecord → Nat} {w x : WorkRecord} :
    ∀ {l : List WorkRecord}, x ∈ insertDescBy key w l ↔ x = w ∨ x ∈ l := by
  intro l
  induction l with
  | nil => simp [insertDescBy]
  | cons a l ih =>
    by_cases h : key a ≤ key w
    · simp [insertDescBy, h]
    · simp only [insertDescBy, if_neg h, List.mem_cons, ih]
      tauto

lemma mem_sortDescBy {key : WorkRecord → Nat} {x : WorkRecord} :
    ∀ {l : List WorkRecord}, x ∈ sortDescBy key l ↔ x ∈ l := by
  intro l
  induction l with
  | nil => simp [sortDescBy]
  | cons a l ih => simp [sortDescBy, mem_insertDescBy, ih]

lemma length_insertDescBy {key : WorkRecord → Nat} {w : WorkRecord} :
    ∀ {l : List WorkRecord}, (insertDescBy key w l).length = l.length + 1 := by
  intro l
  induction l with
  | nil => simp [insertDescBy]
  | cons a l ih =>
    by_cases h : key a ≤ key w
    · simp [insertDescBy, h]
    · simp [insertDescBy, h, ih]

lemma length_sortDescBy {key : WorkRecord → Nat} :
    ∀ {l : List WorkRecord}, (sortDescBy key l).length = l.length := by
  intro l
  induction l with
  | nil => rfl
  | cons a l ih => simp [sortDescBy, length_insertDescBy, ih]

/-- The stable descending sort leaves a list whose keys are all equal as is. -/
lemma sortDescBy_const {key : WorkRecord → Nat} {c : Nat} :
    ∀ {l : List WorkRecord}, (∀ x ∈ l, key x = c) → sortDescBy key l = l := by
  intro l
  induction l with
  | nil => intro _; rfl
  | cons a l ih =>
    intro h
    have ha : key a = c := h a (List.mem_cons_self _ _)
    have hl : ∀ x ∈ l, key x = c := fun x hx => h x (List.mem_cons_of_mem _ hx)
    rw [sortDescBy, ih hl]
    cases l with
    | nil => rfl
    | cons b l' =>
      have hb : key b = c := hl b (List.mem_cons_self _ _)
      simp [insertDescBy, ha, hb]

lemma contains_of_mem {a : String} {l : List String} (h : a ∈ l) : l.contains a = true :=
  List.elem_iff.mpr h

lemma not_contains_iff {a : String} {l : List String} :
    (!(l.contains a)) = true ↔ a ∉ l := by
  cases hc : l.contains a with
  | true => simpa using List.elem_iff.mp hc
  | false =>
    simp only [Bool.not_false, true_iff]
    intro hmem
    rw [contains_of_mem hmem] at hc
    cases hc

lemma length_filter_lt {α : Type} {p : α → Bool} {l : List α} {x : α}
    (hx : x ∈ l) (hpx : p x = false) : (l.filter p).length < l.length :=
  List.length_filter_lt_length_iff_exists.mpr ⟨x, hx, by simp [hpx]⟩

lemma mem_of_mem_retentionPage {connectorId : String} {horizon searchAfter : Nat}
    {works : List WorkRecord} {w : WorkRecord}
    (h : w ∈ retentionPage connectorId horizon searchAfter works) : w ∈ works := by
  have h1 := List.take_subset 500 _ h
  rw [mem_sortDescBy] at h1
  exact (List.mem_filter.mp h1).1

lemma retentionMatches_of_mem_retentionPage {connectorId : String}
    {horizon searchAfter : Nat} {works : List WorkRecord} {w : WorkRecord}
    (h : w ∈ retentionPage connectorId horizon searchAfter works) :
    retentionMatches connectorId horizon w = true := by
  have h1 := List.take_subset 500 _ h
  rw [mem_sortDescBy] at h1
  have h2 := (List.mem_filter.mp h1).2
  exact (Bool.and_eq_true _ _ |>.mp h2).1

lemma deleteOldLoopFuel_works_dec {connectorId : String} {horizon searchAfter : Nat}
    {st : EngineState} {hit : WorkRecord} {rest : List WorkRecord}
    (h : retentionPage connectorId horizon searchAfter st.works = hit :: rest) :
    (elDeleteInstanceIds st.works ((hit :: rest).map (fun w => w.internal_id))).length
      < st.works.length := by
  have hmem : hit ∈ retentionPage connectorId horizon searchAfter st.works := by
    rw [h]; exact List.mem_cons_self _ _
  have hin : hit ∈ st.works := mem_of_mem_retentionPage hmem
  have hid : ((hit :: rest).map (fun w => w.internal_id)).contains hit.internal_id = true :=
    contains_of_mem (List.mem_map_of_mem _ (List.mem_cons_self _ _))
  exact length_filter_lt hin (by simp [hid])

/-- Fuel irrelevance: any fuel exceeding the number of stored job records
computes the same result, so `deleteOldLoop` computes the loop's fixpoint. -/
lemma deleteOldLoopFuel_congr {connectorId : String} {horizon : Nat} :
    ∀ (f1 : Nat) (f2 searchAfter : Nat) (st : EngineState),
      st.works.length < f1 → st.works.length < f2 →
      deleteOldLoopFuel connectorId horizon f1 searchAfter st
        = deleteOldLoopFuel connectorId horizon f2 searchAfter st := by
  intro f1
  induction f1 with
  | zero => intro f2 sa st h1 _; omega
  | succ f1 ih =>
    intro f2 sa st h1 h2
    match f2, h2 with
    | f2 + 1, h2 =>
      simp only [deleteOldLoopFuel]
      cases hpage : retentionPage connectorId horizon sa st.works with
      | nil => rfl
      | cons hit rest =>
        have hdec := deleteOldLoopFuel_works_dec hpage
        exact ih f2 _ _
          (by simpa using Nat.lt_of_lt_of_le hdec (Nat.lt_succ_iff.mp h1))
          (by simpa using Nat.lt_of_lt_of_le hdec (Nat.lt_succ_iff.mp h2))

/-- Unfolding the loop on an empty page. -/
lemma deleteOldLoopFuel_page_nil {connectorId : String} {horizon fuel searchAfter : Nat}
    {st : EngineState}
    (h : retentionPage connectorId horizon searchAfter st.works = []) :
    deleteOldLoopFuel connectorId horizon (fuel + 1) searchAfter st = st := by
  simp only [deleteOldLoopFuel, h]

/-- Unfolding the loop on a non-empty page. -/
lemma deleteOldLoopFuel_page_cons {connectorId : String} {horizon fuel searchAfter : Nat}
    {st : EngineState} {hit : WorkRecord} {rest : List WorkRecord}
    (h : retentionPage connectorId horizon searchAfter st.works = hit :: rest) :
    deleteOldLoopFuel connectorId horizon (fuel + 1) searchAfter st
      = deleteOldLoopFuel connectorId horizon fuel
          (completedKey ((hit :: rest).getLast (by simp)))
          { works := elDeleteInstanceIds st.works ((hit :: rest).map (fun w => w.internal_id))
            counters := redisDeleteWork st.counters ((hit :: rest).map (fun w => w.internal_id)) } := by
  simp only [deleteOldLoopFuel, h]

/-- Unfolding the loop on a non-empty page, stated for an arbitrary non-empty
hit list. -/
lemma deleteOldLoopFuel_page_ne_nil {connectorId : String}
    {horizon fuel searchAfter : Nat} {st : EngineState} {hits : List WorkRecord}
    (hpage : retentionPage connectorId horizon searchAfter st.works = hits)
    (hne : hits ≠ []) :
    deleteOldLoopFuel connectorId horizon (fuel + 1) searchAfter st
      = deleteOldLoopFuel connectorId horizon fuel
          (completedKey (hits.getLast hne))
          { works := elDeleteInstanceIds st.works (hits.map (fun w => w.internal_id))
            counters := redisDeleteWork st.counters (hits.map (fun w => w.internal_id)) } := by
  cases hits with
  | nil => exact absurd rfl hne
  | cons hit rest => exact deleteOldLoopFuel_page_cons hpage

/-- Whatever the fuel, the loop only ever deletes records: the surviving job
records and counter records are among the initial ones. -/
lemma deleteOldLoopFuel_subset {connectorId : String} {horizon : Nat} :
    ∀ (fuel searchAfter : Nat) (st : EngineState),
      (deleteOldLoopFuel connectorId horizon fuel searchAfter st).works ⊆ st.works ∧
      (deleteOldLoopFuel connectorId horizon fuel searchAfter st).counters ⊆ st.counters := by
  intro fuel
  induction fuel with
  | zero => intro sa st; exact ⟨fun _ h => h, fun _ h => h⟩
  | succ fuel ih =>
    intro sa st
    cases hpage : retentionPage connectorId horizon sa st.works with
    | nil => rw [deleteOldLoopFuel_page_nil hpage]; exact ⟨fun _ h => h, fun _ h => h⟩
    | cons hit rest =>
      rw [deleteOldLoopFuel_page_cons hpage]
      refine ⟨fun x hx => ?_, fun x hx => ?_⟩
      · exact (List.filter_sublist _).subset ((ih _ _).1 hx)
      · exact (List.filter_sublist _).subset ((ih _ _).2 hx)

/-- Whatever the fuel, a job record that does not match the retention query
survives the scan, provided internal ids are unique in the store. -/
lemma deleteOldLoopFuel_keeps {connectorId : String} {horizon : Nat} :
    ∀ (fuel searchAfter : Nat) (st : EngineState),
      (st.works.map (fun w => w.internal_id)).Nodup →
      ∀ w ∈ st.works, retentionMatches connectorId horizon w = false →
        w ∈ (deleteOldLoopFuel connectorId horizon fuel searchAfter st).works := by
  intro fuel
  induction fuel with
  | zero => intro sa st _ w hw _; exact hw
  | succ fuel ih =>
    intro sa st hnd w hw hnm
    cases hpage : retentionPage connectorId horizon sa st.works with
    | nil => rw [deleteOldLoopFuel_page_nil hpage]; exact hw
    | cons hit rest =>
      rw [deleteOldLoopFuel_page_cons hpage]
      have hw2 : w ∈ elDeleteInstanceIds st.works
          ((hit :: rest).map (fun w => w.internal_id)) := by
        rw [elDeleteInstanceIds, List.mem_filter]
        refine ⟨hw, not_contains_iff.mpr ?_⟩
        intro hmem
        obtain ⟨h', hh', heq⟩ := List.mem_map.mp hmem
        have hpmem : h' ∈ retentionPage connectorId horizon sa st.works := by
          rw [hpage]; exact hh'
        have : h' = w := List.inj_on_of_nodup_map hnd
          (mem_of_mem_retentionPage hpmem) hw heq
        rw [this] at hpmem
        rw [retentionMatches_of_mem_retentionPage hpmem] at hnm
        cases hnm
      have hnd2 : ((elDeleteInstanceIds st.works
          ((hit :: rest).map (fun w => w.internal_id))).map
            (fun w => w.internal_id)).Nodup :=
        ((List.filter_sublist _).map _).nodup hnd
      exact ih _ _ hnd2 w hw2 hnm

lemma mem_works_deleteWorkRaw {st : EngineState} {iid : String} {w : WorkRecord} :
    w ∈ (deleteWorkRaw st (some iid)).works ↔ w ∈ st.works ∧ iid ≠ w.internal_id := by
  simp only [deleteWorkRaw, elDeleteInstanceIds, List.mem_filter, not_contains_iff,
    List.mem_singleton]
  tauto

lemma mem_counters_deleteWorkRaw {st : EngineState} {iid : String} {c : WorkCounter} :
    c ∈ (deleteWorkRaw st (some iid)).counters ↔ c ∈ st.counters ∧ iid ≠ c.internal_id := by
  simp only [deleteWorkRaw, redisDeleteWork, List.mem_filter, not_contains_iff,
    List.mem_singleton]
  tauto

/-- A job record survives the cascade of `deleteWorkRaw` calls iff it was
there before and its id is not among the deleted works' ids. -/
lemma mem_works_foldl_deleteWorkRaw :
    ∀ (l : List WorkRecord) (st : EngineState) (w : WorkRecord),
      w ∈ (l.foldl (fun s x => deleteWorkRaw s (some x.internal_id)) st).works ↔
        w ∈ st.works ∧ ∀ x ∈ l, x.internal_id ≠ w.internal_id := by
  intro l
  induction l with
  | nil => intro st w; simp
  | cons a l ih =>
    intro st w
    rw [List.foldl_cons, ih, mem_works_deleteWorkRaw]
    constructor
    · rintro ⟨⟨h1, h2⟩, h3⟩
      exact ⟨h1, by intro x hx; rcases List.mem_cons.mp hx with rfl | hx'
                    exacts [h2, h3 x hx']⟩
    · rintro ⟨h1, h2⟩
      exact ⟨⟨h1, h2 a (List.mem_cons_self _ _)⟩,
             fun x hx => h2 x (List.mem_cons_of_mem _ hx)⟩

/-- A counter record survives the cascade of `deleteWorkRaw` calls iff it was
there before and its id is not among the deleted works' ids. -/
lemma mem_counters_foldl_deleteWorkRaw :
    ∀ (l : List WorkRecord) (st : EngineState) (c : WorkCounter),
      c ∈ (l.foldl (fun s x => deleteWorkRaw s (some x.internal_id)) st).counters ↔
        c ∈ st.counters ∧ ∀ x ∈ l, x.internal_id ≠ c.internal_id := by
  intro l
  induction l with
  | nil => intro st c; simp
  | cons a l ih =>
    intro st c
    rw [List.foldl_cons, ih, mem_counters_deleteWorkRaw]
    constructor
    · rintro ⟨⟨h1, h2⟩, h3⟩
      exact ⟨h1, by intro x hx; rcases List.mem_cons.mp hx with rfl | hx'
                    exacts [h2, h3 x hx']⟩
    · rintro ⟨h1, h2⟩
      exact ⟨⟨h1, h2 a (List.mem_cons_self _ _)⟩,
             fun x hx => h2 x (List.mem_cons_of_mem _ hx)⟩

lemma find?_append_of_forall_false {α : Type} {p : α → Bool} {l1 l2 : List α}
    (h : ∀ x ∈ l1, p x = false) :
    List.find? p (l1 ++ l2) = List.find? p l2 := by
  rw [List.find?_append]
  have h0 : List.find? p l1 = none :=
    List.find?_eq_none.mpr (fun x hx => by simp [h x hx])
  rw [h0, Option.none_or]

lemma statusRank_le_two (s : String) : statusRank s ≤ 2 := by
  unfold statusRank
  split_ifs <;> omega

/-- An `elUpdate` relates every stored record to its image, for any relation
that is reflexive and holds across the script. -/
lemma forall₂_elUpdate {l : List WorkRecord} {workId : String}
    {script : WorkRecord → WorkRecord} {R : WorkRecord → WorkRecord → Prop}
    (hrefl : ∀ w, R w w) (hscript : ∀ w, R w (script w)) :
    List.Forall₂ R l (elUpdate l workId script) := by
  rw [elUpdate, List.forall₂_map_right_iff]
  rw [List.forall₂_same]
  intro w _
  by_cases h : (w.internal_id == workId) = true
  · simpa [h] using hscript w
  · simpa [h] using hrefl w

lemma applyActionEvent_status_of_not_complete {w : WorkRecord} {e : ActionEvent}
    (h : e.isComplete = false) :
    (applyActionEvent w e).status = w.status ∧
    (applyActionEvent w e).completed_number = w.completed_number := by
  cases hed : e.errorData <;>
    simp [applyActionEvent, reportActionWrite, h, hed]

lemma applyActionEvent_status_of_complete {w : WorkRecord} {e : ActionEvent}
    (h : e.isComplete = true) :
    (applyActionEvent w e).status = "complete" ∧
    (applyActionEvent w e).completed_number = e.total := by
  cases hed : e.errorData <;>
    simp [applyActionEvent, reportActionWrite, h, hed]

/-- If no event in the sequence carries a completion result, the fold leaves
`status` and `completed_number` untouched. -/
lemma foldl_applyActionEvent_no_complete :
    ∀ (l : List ActionEvent) (w : WorkRecord), (∀ e ∈ l, e.isComplete = false) →
      (l.foldl applyActionEvent w).status = w.status ∧
      (l.foldl applyActionEvent w).completed_number = w.completed_number := by
  intro l
  induction l with
  | nil => intro w _; exact ⟨rfl, rfl⟩
  | cons e l ih =>
    intro w h
    have he := h e (List.mem_cons_self _ _)
    have hstep := applyActionEvent_status_of_not_complete (w := w) he
    have hrest := ih (applyActionEvent w e) (fun x hx => h x (List.mem_cons_of_mem _ hx))
    rw [List.foldl_cons]
    exact ⟨hrest.1.trans hstep.1, hrest.2.trans hstep.2⟩

/-- If exactly one event carries a completion result and every completing
event's total is `expected`, the fold ends with `status = "complete"` and
`completed_number = expected`, whatever the interleaving order was. -/
lemma foldl_applyActionEvent_one_complete {expected : Nat} :
    ∀ (l : List ActionEvent) (w : WorkRecord),
      l.countP (fun e => e.isComplete) = 1 →
      (∀ e ∈ l, e.isComplete = true → e.total = expected) →
      (l.foldl applyActionEvent w).status = "complete" ∧
      (l.foldl applyActionEvent w).completed_number = expected := by
  intro l
  induction l with
  | nil => intro w h _; simp [List.countP_nil] at h
  | cons e l ih =>
    intro w hcount htot
    rw [List.countP_cons] at hcount
    by_cases he : e.isComplete = true
    · rw [if_pos (by simpa using he)] at hcount
      have hl0 : l.countP (fun x => x.isComplete) = 0 := by omega
      have hstep := applyActionEvent_status_of_complete (w := w) he
      have hrest := foldl_applyActionEvent_no_complete l (applyActionEvent w e)
        (fun x hx => by
          by_contra hxc
          have hpos : 0 < l.countP (fun x => x.isComplete) :=
            List.countP_pos_iff.mpr ⟨x, hx, by simpa using hxc⟩
          omega)
      rw [List.foldl_cons]
      refine ⟨hrest.1.trans hstep.1, hrest.2.trans ?_⟩
      rw [hstep.2]
      exact htot e (List.mem_cons_self _ _) he
    · have he' : e.isComplete = false := by simpa using he
      rw [if_neg (by simp [he'])] at hcount
      have hl1 : l.countP (fun x => x.isComplete) = 1 := by omega
      rw [List.foldl_cons]
      exact ih (applyActionEvent w e) hl1
        (fun x hx => htot x (List.mem_cons_of_mem _ hx))

/-- Counting the completion results handed out by `n` serialized increments. -/
lemma countP_actionResults (expected p0 : Nat) :
    ∀ n, (actionResults expected p0 n).countP (fun r => r.1)
      = if p0 < expected ∧ expected ≤ p0 + n then 1 else 0 := by
  intro n
  induction n with
  | zero =>
    rw [actionResults, List.range_zero, List.map_nil, List.countP_nil]
    rw [if_neg (by omega)]
  | succ n ih =>
    rw [actionResults, List.range_succ, List.map_append, List.countP_append]
    rw [actionResults] at ih
    rw [ih]
    simp only [List.map_cons, List.map_nil, List.countP_cons, List.countP_nil,
      beq_iff_eq]
    split_ifs <;> omega

/-- Every completion result handed out by the serialized increments carries
`total = expected`. -/
lemma actionResults_total {expected p0 n : Nat} {r : Bool × Nat}
    (h : r ∈ actionResults expected p0 n) (hc : r.1 = true) : r.2 = expected := by
  obtain ⟨k, _, rfl⟩ := List.mem_map.mp h
  have h1 : (p0 + k + 1 == expected) = true := by simpa using hc
  simpa using beq_iff_eq.mp h1

/-- Field-by-field effect of the `reportActionImport` script. -/
lemma reportActionWrite_fields (isComplete : Bool) (total : Nat)
    (errorData : Option ErrorData) (nowT : Nat) (w : WorkRecord) :
    (reportActionWrite isComplete total errorData nowT w).status
        = (if isComplete then "complete" else w.status) ∧
    (reportActionWrite isComplete total errorData nowT w).completed_number
        = (if isComplete then total else w.completed_number) ∧
    (reportActionWrite isComplete total errorData nowT w).completed_time
        = (if isComplete then some nowT else w.completed_time) ∧
    (reportActionWrite isComplete total errorData nowT w).errors
        = (match errorData with
           | some ed => w.errors
               ++ [{ timestamp := nowT, message := ed.error, source := some ed.source }]
           | none => w.errors) ∧
    (reportActionWrite isComplete total errorData nowT w).internal_id = w.internal_id ∧
    (reportActionWrite isComplete total errorData nowT w).messages = w.messages := by
  cases errorData <;> cases isComplete <;> simp [reportActionWrite]

/-- Field-by-field effect of the `updateProcessedTime` script. -/
lemma processedScript_fields (isComplete : Bool) (total : Nat)
    (message : Option String) (inError : Bool) (nowT : Nat) (w : WorkRecord) :
    (processedScript isComplete total message inError nowT w).processed_time = some nowT ∧
    (processedScript isComplete total message inError nowT w).status
        = (if isComplete then "complete" else w.status) ∧
    (processedScript isComplete total message inError nowT w).completed_number
        = (if isComplete then total else w.completed_number) ∧
    (processedScript isComplete total message inError nowT w).completed_time
        = (if isComplete then some nowT else w.completed_time) ∧
    (processedScript isComplete total message inError nowT w).internal_id = w.internal_id ∧
    (processedScript isComplete total message inError nowT w).errors
        = (if isNotEmptyField message && inError
           then w.errors ++ [{ timestamp := nowT, message := message.getD "", source := none }]
           else w.errors) ∧
    (processedScript isComplete total message inError nowT w).messages
        = (if isNotEmptyField message && !inError
           then w.messages ++ [{ timestamp := nowT, message := message.getD "", source := none }]
           else w.messages) := by
  cases hm : isNotEmptyField message <;> cases inError <;> cases isComplete <;>
    simp [processedScript, hm]

/-- Field-by-field effect of the `updateReceivedTime` script. -/
lemma receivedScript_fields (message : Option String) (nowT : Nat) (w : WorkRecord) :
    (receivedScript message nowT w).status = "progress" ∧
    (receivedScript message nowT w).received_time = some nowT ∧
    (receivedScript message nowT w).internal_id = w.internal_id ∧
    (receivedScript message nowT w).errors = w.errors ∧
    (receivedScript message nowT w).messages
        = (if isNotEmptyField message
           then w.messages ++ [{ timestamp := nowT, message := message.getD "", source := none }]
           else w.messages) := by
  cases hm : isNotEmptyField message <;> simp [receivedScript, hm]

/-- Pointwise version of `forall₂_elUpdate`: it suffices to relate each
record to its (possibly unchanged) image. -/
lemma forall₂_elUpdate_pointwise {l : List WorkRecord} {workId : String}
    {script : WorkRecord → WorkRecord} {R : WorkRecord → WorkRecord → Prop}
    (h : ∀ w ∈ l, R w (if (w.internal_id == workId) = true then script w else w)) :
    List.Forall₂ R l (elUpdate l workId script) := by
  rw [elUpdate, List.forall₂_map_right_iff, List.forall₂_same]
  intro w hw
  by_cases hb : (w.internal_id == workId) = true
  · simpa [hb] using h w hw
  · simpa [hb] using h w hw

/-! ## Claims -/

/-- C9: deletion of a job id with no corresponding record is a no-op success:
`deleteWork` returns normally (it is total in this model) and leaves every job
record and every counter record unchanged.  The store behaviour is
spec-modelled: the JS reads `internal_id` off the `{id}` stub `loadWorkById`
builds for a missing record, getting `undefined`, and both store deletions on
an absent key are no-op successes per the spec's error-handling section. -/
theorem deleteWork_missing_noop (st : EngineState) (workId : String)
    (h : loadWorkById st workId = none) : deleteWork st workId = st := by
  rw [deleteWork, h]
  rfl

theorem deleteWork_missing_noop_witness :
    loadWorkById ⟨[doneW], [⟨"w1", 1, 0⟩]⟩ "nope" = none ∧
      deleteWork ⟨[doneW], [⟨"w1", 1, 0⟩]⟩ "nope" = ⟨[doneW], [⟨"w1", 1, 0⟩]⟩ :=
  ⟨by decide, deleteWork_missing_noop _ _ (by decide)⟩

/-- C8: the export-progress projection works on the page of the 10 most
recent export-type jobs of the source (newest first, by construction of
`worksForSource`), retains exactly the jobs that are not (complete with empty
errors) — the source's filter `status != 'complete' || errors.length > 0`
agrees pointwise with the spec's exclusion rule — and maps each retained job
to its descriptor via `workToExportFile` (hence `id`, `name`, `size = 0`,
`lastModified`, `uploadStatus` = the job's status, and `metaData` carrying
`messages`/`errors`).  It is a pure function of the state: no store is
touched. -/
theorem loadExportWorksAsProgressFiles_spec (st : EngineState) (sourceId : String)
    (nowT : Nat) :
    loadExportWorksAsProgressFiles st sourceId nowT
      = ((worksForSource st sourceId (some CONNECTOR_INTERNAL_EXPORT_FILE) 10).filter
          specExportKeeps).map (workToExportFile nowT) ∧
    (∀ f ∈ loadExportWorksAsProgressFiles st sourceId nowT, f.size = 0) ∧
    (loadExportWorksAsProgressFiles st sourceId nowT).length ≤ 10 := by
  have hpt : ∀ w : WorkRecord,
      (w.status != "complete" || decide (0 < w.errors.length)) = specExportKeeps w := by
    intro w
    rw [specExportKeeps]
    cases herr : w.errors <;> cases hs : (w.status == "complete") <;>
      simp [bne, hs, herr]
  refine ⟨?_, ?_, ?_⟩
  · simp only [loadExportWorksAsProgressFiles]
    rw [List.filter_congr (fun w _ => hpt w)]
  · intro f hf
    simp only [loadExportWorksAsProgressFiles] at hf
    obtain ⟨w, _, rfl⟩ := List.mem_map.mp hf
    rfl
  · simp only [loadExportWorksAsProgressFiles, List.length_map]
    calc (List.filter _ (worksForSource st sourceId
            (some CONNECTOR_INTERNAL_EXPORT_FILE) 10)).length
      ≤ (worksForSource st sourceId (some CONNECTOR_INTERNAL_EXPORT_FILE) 10).length :=
        List.length_filter_le _ _
    _ ≤ 10 := by
        rw [worksForSource, elPaginate]
        exact List.length_take_le _ _

theorem loadExportWorksAsProgressFiles_spec_witness :
    loadExportWorksAsProgressFiles expState "s" 50
      = ((worksForSource expState "s" (some CONNECTOR_INTERNAL_EXPORT_FILE) 10).filter
          specExportKeeps).map (workToExportFile 50) ∧
    (loadExportWorksAsProgressFiles expState "s" 50).map (fun f => f.id) = ["e2"] :=
  ⟨(loadExportWorksAsProgressFiles_spec expState "s" 50).1, by decide⟩

/-- C2 counterexample: `reportReceived` (`updateReceivedTime`) applied to a
job whose status is already `complete` sets it back to `progress`
(`InProgress`): the status transition goes backward, contradicting the
claim that no operation ever moves status backward. -/
theorem updateReceivedTime_regression_cex :
    doneW.status = "complete" ∧
    ((updateReceivedTime ⟨[doneW], []⟩ "w1" none 9).works.map (fun w => w.status))
      = ["progress"] ∧
    statusRank "progress" < statusRank "complete" := by decide

/-- C2 (amended): a job's status never moves backward under `reportProcessed`
(`updateProcessedTime`) or `reportAction` (`reportActionImport`), which only
ever set `status = "complete"`; but `reportReceived` (`updateReceivedTime`)
unconditionally forces `status = "progress"` on the addressed job — forward
from `Waiting`, yet backward from `Complete`. -/
theorem status_transitions_amended (st : EngineState) (workId : String)
    (message : Option String) (inError : Bool) (errorData : Option ErrorData)
    (nowT : Nat) :
    (∀ st', updateProcessedTime st workId message inError nowT = some st' →
      List.Forall₂ (fun w w' => statusRank w.status ≤ statusRank w'.status)
        st.works st'.works) ∧
    (∀ st', reportActionImport st workId errorData nowT = some st' →
      List.Forall₂ (fun w w' => statusRank w.status ≤ statusRank w'.status)
        st.works st'.works) ∧
    List.Forall₂ (fun w w' => w.internal_id = workId → w'.status = "progress")
      st.works (updateReceivedTime st workId message nowT).works := by
  refine ⟨?_, ?_, ?_⟩
  · intro st' h
    rw [updateProcessedTime] at h
    cases hic : isWorkCompleted st workId with
    | none => rw [hic] at h; cases h
    | some r =>
      rw [hic] at h
      obtain ⟨isC, total⟩ := r
      injection h with h
      subst h
      apply forall₂_elUpdate_pointwise
      intro w _
      by_cases hb : (w.internal_id == workId) = true
      · rw [if_pos hb]
        rw [(processedScript_fields isC total message inError nowT w).2.1]
        cases isC
        · simp
        · simpa using statusRank_le_two w.status
      · rw [if_neg hb]
  · intro st' h
    cases hru : redisUpdateWorkFigures st.counters workId with
    | none =>
      rw [reportActionImport, hru] at h
      exact Option.noConfusion h
    | some r =>
      obtain ⟨isC, total, counters2⟩ := r
      have hrw : reportActionImport st workId errorData nowT
          = if isC || errorData.isSome
            then some { works := elUpdate st.works workId
                          (reportActionWrite isC total errorData nowT)
                        counters := counters2 }
            else some { works := st.works, counters := counters2 } := by
        rw [reportActionImport, hru]
      rw [hrw] at h
      by_cases hcond : (isC || errorData.isSome) = true
      · rw [if_pos hcond] at h
        injection h with h
        subst h
        apply forall₂_elUpdate_pointwise
        intro w _
        by_cases hb : (w.internal_id == workId) = true
        · rw [if_pos hb]
          rw [(reportActionWrite_fields isC total errorData nowT w).1]
          cases isC
          · simp
          · simpa using statusRank_le_two w.status
        · rw [if_neg hb]
      · rw [if_neg hcond] at h
        injection h with h
        subst h
        exact List.forall₂_same.mpr (fun w _ => le_refl _)
  · apply forall₂_elUpdate_pointwise
    intro w _
    intro hid
    rw [if_pos (by simp [hid])]
    exact (receivedScript_fields message nowT w).1

theorem status_transitions_amended_witness :
    List.Forall₂ (fun w w' => statusRank w.status ≤ statusRank w'.status)
      evenState.works [procDoneW] ∧
    List.Forall₂ (fun w w' => statusRank w.status ≤ statusRank w'.status)
      oneToGoState.works [actDoneW] ∧
    List.Forall₂ (fun w w' => w.internal_id = "w1" → w'.status = "progress")
      evenState.works (updateReceivedTime evenState "w1" none 9).works :=
  ⟨(status_transitions_amended evenState "w1" none false none 9).1
      ⟨[procDoneW], [⟨"w1", 2, 2⟩]⟩ (by decide),
   (status_transitions_amended oneToGoState "w1" none false none 4).2.1
      ⟨[actDoneW], [⟨"w1", 1, 1⟩]⟩ (by decide),
   (status_transitions_amended evenState "w1" none false none 9).2.2⟩

/-- C3 counterexample: eleven jobs share one `event_source_id`;
`deleteWorkForSource` (`deleteWorkForFile`) deletes only the page returned by
`worksForSource` with its default `first = 10` — the 10 most recent — so the
oldest matching job and its paired counter are left behind. -/
theorem deleteWorkForFile_leaves_eleventh_cex :
    srcState.works.length = 11 ∧
    (deleteWorkForFile srcState "src1").works = [srcW 0] ∧
    (srcW 0).event_source_id = "src1" ∧
    (deleteWorkForFile srcState "src1").counters = [⟨"", 0, 0⟩] := by decide

/-- C3 (amended): `deleteWorkForFile` cascades over the page returned by
`worksForSource(fileId)` — the 10 most recent matching jobs, `first = 10` —
deleting each job together with its paired counter.  Whenever at most 10 jobs
match the source, no matching job (or counter of one) is left behind; with
more than 10 matches, the older ones survive (see the counterexample). -/
theorem deleteWorkForFile_amended (st : EngineState) (fileId : String)
    (h : (st.works.filter (fun w => w.entity_type == ENTITY_TYPE_WORK &&
           w.event_source_id == fileId)).length ≤ 10) :
    (∀ w ∈ (deleteWorkForFile st fileId).works,
       ¬(w.entity_type = ENTITY_TYPE_WORK ∧ w.event_source_id = fileId)) ∧
    (∀ w ∈ st.works, w.entity_type = ENTITY_TYPE_WORK → w.event_source_id = fileId →
       ∀ c ∈ (deleteWorkForFile st fileId).counters, c.internal_id ≠ w.internal_id) := by
  have hfilteq : ∀ w : WorkRecord,
      (w.entity_type == ENTITY_TYPE_WORK && w.event_source_id == fileId &&
        (match (none : Option String) with
         | some t => w.event_type == t
         | none => true))
      = (w.entity_type == ENTITY_TYPE_WORK && w.event_source_id == fileId) := by
    intro w
    simp
  have hL : worksForSource st fileId none 10
      = sortDescBy (fun w => w.timestamp)
          (st.works.filter (fun w => w.entity_type == ENTITY_TYPE_WORK &&
            w.event_source_id == fileId)) := by
    rw [worksForSource, elPaginate, List.filter_congr (fun w _ => hfilteq w)]
    exact List.take_of_length_le (by rw [length_sortDescBy]; exact h)
  have hmemL : ∀ w ∈ st.works, w.entity_type = ENTITY_TYPE_WORK →
      w.event_source_id = fileId → w ∈ worksForSource st fileId none 10 := by
    intro w hw he hs
    rw [hL, mem_sortDescBy, List.mem_filter]
    exact ⟨hw, by simp [he, hs]⟩
  constructor
  · intro w hw ⟨he, hs⟩
    rw [deleteWorkForFile, mem_works_foldl_deleteWorkRaw] at hw
    exact hw.2 w (hmemL w hw.1 he hs) rfl
  · intro w hw he hs c hc
    rw [deleteWorkForFile, mem_counters_foldl_deleteWorkRaw] at hc
    exact fun heq => hc.2 w (hmemL w hw he hs) heq.symm

theorem deleteWorkForFile_amended_witness :
    ((⟨[srcW 0], [⟨"", 0, 0⟩]⟩ : EngineState).works.filter
      (fun w => w.entity_type == ENTITY_TYPE_WORK &&
        w.event_source_id == "src1")).length ≤ 10 ∧
    (∀ w ∈ (deleteWorkForFile ⟨[srcW 0], [⟨"", 0, 0⟩]⟩ "src1").works,
       ¬(w.entity_type = ENTITY_TYPE_WORK ∧ w.event_source_id = "src1")) :=
  ⟨by decide, (deleteWorkForFile_amended ⟨[srcW 0], [⟨"", 0, 0⟩]⟩ "src1" (by decide)).1⟩

lemma deleteOldCompletedWorks_subset (connector : Connector) (nowT : Nat)
    (st : EngineState) :
    (deleteOldCompletedWorks connector nowT st).works ⊆ st.works ∧
    (deleteOldCompletedWorks connector nowT st).counters ⊆ st.counters := by
  rw [deleteOldCompletedWorks, deleteOldLoop]
  exact deleteOldLoopFuel_subset _ _ _

/-- With a fresh work id, the read-back after `createWork` finds exactly the
newly inserted record. -/
lemma createWork_loadback (st : EngineState) (userId : String) (connector : Connector)
    (friendlyName sourceId : String) (receivedTime : Option Nat) (workId : String)
    (nowT : Nat) (hW : ∀ w ∈ st.works, w.internal_id ≠ workId) :
    (createWork st userId connector friendlyName sourceId receivedTime workId nowT).2
      = some (newWorkRecord userId connector friendlyName sourceId receivedTime workId nowT) := by
  have heq : (createWork st userId connector friendlyName sourceId receivedTime workId nowT).2
      = List.find? (fun w => w.internal_id == workId)
          ((deleteOldCompletedWorks connector nowT st).works
            ++ [newWorkRecord userId connector friendlyName sourceId receivedTime workId nowT]) := rfl
  rw [heq, find?_append_of_forall_false]
  · exact List.find?_cons_of_pos _ (beq_self_eq_true workId)
  · intro w hw
    exact beq_eq_false_iff_ne.mpr
      (hW w ((deleteOldCompletedWorks_subset connector nowT st).1 hw))

/-- With a fresh work id, the counter store after `createWork` holds exactly
the fresh zero/zero counter under that id. -/
lemma createWork_counter_lookup (st : EngineState) (userId : String)
    (connector : Connector) (friendlyName sourceId : String)
    (receivedTime : Option Nat) (workId : String) (nowT : Nat)
    (hC : ∀ c ∈ st.counters, c.internal_id ≠ workId) :
    redisGetWork
      (createWork st userId connector friendlyName sourceId receivedTime workId nowT).1.counters
      workId = some (newWorkTracing workId) := by
  have heq : redisGetWork
      (createWork st userId connector friendlyName sourceId receivedTime workId nowT).1.counters
      workId
      = List.find? (fun c => c.internal_id == workId)
          ((deleteOldCompletedWorks connector nowT st).counters ++ [newWorkTracing workId]) := rfl
  rw [heq, find?_append_of_forall_false]
  · exact List.find?_cons_of_pos _ (beq_self_eq_true workId)
  · intro c hc
    exact beq_eq_false_iff_ne.mpr
      (hC c ((deleteOldCompletedWorks_subset connector nowT st).2 hc))

/-- The newly created record is in the store after `createWork`. -/
lemma createWork_mem_works (st : EngineState) (userId : String) (connector : Connector)
    (friendlyName sourceId : String) (receivedTime : Option Nat) (workId : String)
    (nowT : Nat) :
    newWorkRecord userId connector friendlyName sourceId receivedTime workId nowT
      ∈ (createWork st userId connector friendlyName sourceId receivedTime workId nowT).1.works :=
  List.mem_append_right _ (List.mem_singleton_self _)

/-- C4 counterexample: when `receivedTime` is supplied, the returned record's
`received_time` carries it and is not null, so "every timestamp field except
the creation timestamp is null" fails as stated. -/
theorem createWork_nonnull_received_time_cex :
    ((createWork emptyState "u" impConn "f.csv" "src" (some 7) "wid" 100).2).map
      (fun w => w.received_time) = some (some 7) ∧
    (some 7 : Option Nat) ≠ none := by decide

/-- C4 (amended): `createWork` returns a job record whose status is
`progress` iff `receivedTime` was supplied and `wait` otherwise, whose
`received_time` equals the supplied `receivedTime` (hence null exactly when
none was supplied), whose `processed_time` and `completed_time` are null
while the creation `timestamp` is set, whose `messages` and `errors` are
empty; and the paired counter record is initialized with
`expectedCount = 0` and `processedCount = 0`. -/
theorem createWork_amended (st : EngineState) (userId : String) (connector : Connector)
    (friendlyName sourceId : String) (receivedTime : Option Nat) (workId : String)
    (nowT : Nat)
    (hW : ∀ w ∈ st.works, w.internal_id ≠ workId)
    (hC : ∀ c ∈ st.counters, c.internal_id ≠ workId) :
    (createWork st userId connector friendlyName sourceId receivedTime workId nowT).2
      = some (newWorkRecord userId connector friendlyName sourceId receivedTime workId nowT) ∧
    (newWorkRecord userId connector friendlyName sourceId receivedTime workId nowT).status
      = (if receivedTime.isSome then "progress" else "wait") ∧
    (newWorkRecord userId connector friendlyName sourceId receivedTime workId nowT).received_time
      = receivedTime ∧
    (newWorkRecord userId connector friendlyName sourceId receivedTime workId nowT).processed_time
      = none ∧
    (newWorkRecord userId connector friendlyName sourceId receivedTime workId nowT).completed_time
      = none ∧
    (newWorkRecord userId connector friendlyName sourceId receivedTime workId nowT).timestamp
      = nowT ∧
    (newWorkRecord userId connector friendlyName sourceId receivedTime workId nowT).messages
      = [] ∧
    (newWorkRecord userId connector friendlyName sourceId receivedTime workId nowT).errors
      = [] ∧
    redisGetWork
      (createWork st userId connector friendlyName sourceId receivedTime workId nowT).1.counters
      workId = some (newWorkTracing workId) ∧
    (newWorkTracing workId).import_expected_number = 0 ∧
    (newWorkTracing workId).import_processed_number = 0 :=
  ⟨createWork_loadback st userId connector friendlyName sourceId receivedTime workId nowT hW,
   rfl, rfl, rfl, rfl, rfl, rfl, rfl,
   createWork_counter_lookup st userId connector friendlyName sourceId receivedTime workId nowT hC,
   rfl, rfl⟩

theorem createWork_amended_witness :
    (∀ w ∈ emptyState.works, w.internal_id ≠ "wid") ∧
    (∀ c ∈ emptyState.counters, c.internal_id ≠ "wid") ∧
    (createWork emptyState "u" impConn "f.csv" "src" none "wid" 100).2
      = some (newWorkRecord "u" impConn "f.csv" "src" none "wid" 100) ∧
    (newWorkRecord "u" impConn "f.csv" "src" none "wid" 100).status = "wait" :=
  ⟨by decide, by decide,
   (createWork_amended emptyState "u" impConn "f.csv" "src" none "wid" 100
      (by decide) (by decide)).1,
   by decide⟩

/-- C6: `reportProcessed` (`updateProcessedTime`) on a job with an existing
counter performs one atomic write that sets `processed_time = now`; when the
counter read shows `processedCount == expectedCount`, the same write also
sets `status = "complete"`, `completed_number = processedCount` and
`completed_time` to the same `now`; and a non-empty message is appended — in
that same write — to `errors` when `isError` and to `messages` otherwise. -/
theorem updateProcessedTime_write_spec (st : EngineState) (workId : String)
    (message : Option String) (inError : Bool) (nowT : Nat) (c : WorkCounter)
    (w : WorkRecord)
    (hc : redisGetWork st.counters workId = some c)
    (hw : w ∈ st.works) (hid : w.internal_id = workId) :
    ∃ st', updateProcessedTime st workId message inError nowT = some st' ∧
      ∃ w' ∈ st'.works,
        w'.internal_id = w.internal_id ∧
        w'.processed_time = some nowT ∧
        (c.import_processed_number = c.import_expected_number →
          w'.status = "complete" ∧
          w'.completed_number = c.import_processed_number ∧
          w'.completed_time = some nowT) ∧
        (c.import_processed_number ≠ c.import_expected_number →
          w'.status = w.status ∧ w'.completed_number = w.completed_number ∧
          w'.completed_time = w.completed_time) ∧
        (isNotEmptyField message = true → inError = true →
          w'.errors = w.errors
            ++ [{ timestamp := nowT, message := message.getD "", source := none }] ∧
          w'.messages = w.messages) ∧
        (isNotEmptyField message = true → inError = false →
          w'.messages = w.messages
            ++ [{ timestamp := nowT, message := message.getD "", source := none }] ∧
          w'.errors = w.errors) ∧
        (isNotEmptyField message = false →
          w'.messages = w.messages ∧ w'.errors = w.errors) := by
  have hiwc : isWorkCompleted st workId
      = some (c.import_processed_number == c.import_expected_number,
              c.import_processed_number) := by
    rw [isWorkCompleted, hc]
    rfl
  have hrw : updateProcessedTime st workId message inError nowT
      = some ⟨elUpdate st.works workId
          (processedScript (c.import_processed_number == c.import_expected_number)
            c.import_processed_number message inError nowT), st.counters⟩ := by
    rw [updateProcessedTime, hiwc]
  refine ⟨_, hrw, ?_⟩
  have F := processedScript_fields
    (c.import_processed_number == c.import_expected_number)
    c.import_processed_number message inError nowT w
  refine ⟨processedScript (c.import_processed_number == c.import_expected_number)
    c.import_processed_number message inError nowT w, ?_, ?_, ?_, ?_, ?_, ?_, ?_, ?_⟩
  · show _ ∈ elUpdate st.works workId _
    rw [elUpdate]
    exact List.mem_map.mpr ⟨w, hw, by simp [hid]⟩
  · exact F.2.2.2.2.1
  · exact F.1
  · intro hcomp
    have hb : (c.import_processed_number == c.import_expected_number) = true :=
      beq_iff_eq.mpr hcomp
    exact ⟨by rw [F.2.1, hb, if_pos rfl],
           by rw [F.2.2.1, hb, if_pos rfl],
           by rw [F.2.2.2.1, hb, if_pos rfl]⟩
  · intro hcomp
    have hb : (c.import_processed_number == c.import_expected_number) = false :=
      beq_eq_false_iff_ne.mpr hcomp
    exact ⟨by rw [F.2.1, hb]; rfl,
           by rw [F.2.2.1, hb]; rfl,
           by rw [F.2.2.2.1, hb]; rfl⟩
  · intro hm hie
    exact ⟨by rw [F.2.2.2.2.2.1, hm, hie]; rfl,
           by rw [F.2.2.2.2.2.2, hm, hie]; rfl⟩
  · intro hm hie
    exact ⟨by rw [F.2.2.2.2.2.2, hm, hie]; rfl,
           by rw [F.2.2.2.2.2.1, hm, hie]; rfl⟩
  · intro hm
    exact ⟨by rw [F.2.2.2.2.2.2, hm]; rfl,
           by rw [F.2.2.2.2.2.1, hm]; rfl⟩

theorem updateProcessedTime_write_spec_witness :
    redisGetWork evenState.counters "w1" = some ⟨"w1", 2, 2⟩ ∧
    waitW ∈ evenState.works ∧
    (∃ st', updateProcessedTime evenState "w1" (some "done") false 9 = some st' ∧
      ∃ w' ∈ st'.works,
        w'.internal_id = waitW.internal_id ∧
        w'.processed_time = some 9 ∧
        ((⟨"w1", 2, 2⟩ : WorkCounter).import_processed_number
            = (⟨"w1", 2, 2⟩ : WorkCounter).import_expected_number →
          w'.status = "complete" ∧
          w'.completed_number = (⟨"w1", 2, 2⟩ : WorkCounter).import_processed_number ∧
          w'.completed_time = some 9) ∧
        ((⟨"w1", 2, 2⟩ : WorkCounter).import_processed_number
            ≠ (⟨"w1", 2, 2⟩ : WorkCounter).import_expected_number →
          w'.status = waitW.status ∧ w'.completed_number = waitW.completed_number ∧
          w'.completed_time = waitW.completed_time) ∧
        (isNotEmptyField (some "done") = true → false = true →
          w'.errors = waitW.errors
            ++ [{ timestamp := 9, message := (some "done").getD "", source := none }] ∧
          w'.messages = waitW.messages) ∧
        (isNotEmptyField (some "done") = true → false = false →
          w'.messages = waitW.messages
            ++ [{ timestamp := 9, message := (some "done").getD "", source := none }] ∧
          w'.errors = waitW.errors) ∧
        (isNotEmptyField (some "done") = false →
          w'.messages = waitW.messages ∧ w'.errors = waitW.errors)) :=
  ⟨by decide, by decide,
   updateProcessedTime_write_spec evenState "w1" (some "done") false 9 ⟨"w1", 2, 2⟩ waitW
     (by decide) (by decide) (by decide)⟩

/-- C10: on a job freshly created by `createWork` — whose counter still holds
`expectedCount = 0` and `processedCount = 0` — a single `reportProcessed`
(`updateProcessedTime`) call observes `processedCount == expectedCount`
(`0 == 0`) and immediately finalizes the job: `status` becomes `complete`
with `completed_number = 0` and `completed_time` set, even though no sub-item
of work was ever processed. -/
theorem fresh_work_single_processed_finalizes (st : EngineState) (userId : String)
    (connector : Connector) (friendlyName sourceId : String)
    (receivedTime : Option Nat) (workId : String) (t1 : Nat)
    (message : Option String) (inError : Bool) (t2 : Nat)
    (hW : ∀ w ∈ st.works, w.internal_id ≠ workId)
    (hC : ∀ c ∈ st.counters, c.internal_id ≠ workId) :
    ∃ st2, updateProcessedTime
        (createWork st userId connector friendlyName sourceId receivedTime workId t1).1
        workId message inError t2 = some st2 ∧
      ∃ w' ∈ st2.works, w'.internal_id = workId ∧ w'.status = "complete" ∧
        w'.completed_number = 0 ∧ w'.completed_time = some t2 := by
  have hctr := createWork_counter_lookup st userId connector friendlyName sourceId
    receivedTime workId t1 hC
  set st1 := (createWork st userId connector friendlyName sourceId receivedTime workId t1).1
    with hst1
  have hiwc : isWorkCompleted st1 workId = some (true, 0) := by
    rw [isWorkCompleted, hctr]
    rfl
  have hrw : updateProcessedTime st1 workId message inError t2
      = some ⟨elUpdate st1.works workId
          (processedScript true 0 message inError t2), st1.counters⟩ := by
    rw [updateProcessedTime, hiwc]
  refine ⟨_, hrw, ?_⟩
  have hmemw : newWorkRecord userId connector friendlyName sourceId receivedTime workId t1
      ∈ st1.works :=
    createWork_mem_works st userId connector friendlyName sourceId receivedTime workId t1
  have F := processedScript_fields true 0 message inError t2
    (newWorkRecord userId connector friendlyName sourceId receivedTime workId t1)
  refine ⟨processedScript true 0 message inError t2
      (newWorkRecord userId connector friendlyName sourceId receivedTime workId t1),
    ?_, ?_, ?_, ?_, ?_⟩
  · show _ ∈ elUpdate st1.works workId _
    rw [elUpdate]
    exact List.mem_map.mpr ⟨_, hmemw, by simp [newWorkRecord]⟩
  · rw [F.2.2.2.2.1]; rfl
  · rw [F.2.1]; rfl
  · rw [F.2.2.1]; rfl
  · rw [F.2.2.2.1]; rfl

theorem fresh_work_single_processed_finalizes_witness :
    (∀ w ∈ emptyState.works, w.internal_id ≠ "wid") ∧
    (∀ c ∈ emptyState.counters, c.internal_id ≠ "wid") ∧
    (∃ st2, updateProcessedTime
        (createWork emptyState "u" impConn "f.csv" "src" none "wid" 100).1
        "wid" none false 200 = some st2 ∧
      ∃ w' ∈ st2.works, w'.internal_id = "wid" ∧ w'.status = "complete" ∧
        w'.completed_number = 0 ∧ w'.completed_time = some 200) :=
  ⟨by decide, by decide,
   fresh_work_single_processed_finalizes emptyState "u" impConn "f.csv" "src" none
     "wid" 100 none false 200 (by decide) (by decide)⟩

/-- C5: `reportAction` (`reportActionImport`) on a job with an existing
counter: when the atomic increment reports completion
(`processed + 1 = expected`), the job record is updated in one atomic write
with `status = "complete"`, `completed_number` = the counter's new total and
`completed_time = now`; when `errorData = {error, source}` is present,
`{timestamp, message, source}` is appended to `errors` in that same write;
and when neither completion is reported nor error data is present, the job
record is not updated at all — in particular an error append alone leaves
`status`, `completed_number` and `completed_time` unchanged. -/
theorem reportActionImport_write_spec (st : EngineState) (workId : String)
    (errorData : Option ErrorData) (nowT : Nat) (c : WorkCounter) (w : WorkRecord)
    (hc : redisGetWork st.counters workId = some c)
    (hw : w ∈ st.works) (hid : w.internal_id = workId) :
    ∃ st', reportActionImport st workId errorData nowT = some st' ∧
      (c.import_processed_number + 1 ≠ c.import_expected_number → errorData = none →
        st'.works = st.works) ∧
      ∃ w' ∈ st'.works,
        w'.internal_id = w.internal_id ∧
        (c.import_processed_number + 1 = c.import_expected_number →
          w'.status = "complete" ∧
          w'.completed_number = c.import_processed_number + 1 ∧
          w'.completed_time = some nowT) ∧
        (c.import_processed_number + 1 ≠ c.import_expected_number →
          w'.status = w.status ∧ w'.completed_number = w.completed_number ∧
          w'.completed_time = w.completed_time) ∧
        (∀ ed, errorData = some ed →
          w'.errors = w.errors
            ++ [{ timestamp := nowT, message := ed.error, source := some ed.source }]) ∧
        (errorData = none → w'.errors = w.errors) := by
  have hru : redisUpdateWorkFigures st.counters workId
      = some (c.import_processed_number + 1 == c.import_expected_number,
              c.import_processed_number + 1,
              st.counters.map (fun d => if d.internal_id == workId
                then { d with import_processed_number := d.import_processed_number + 1 }
                else d)) := by
    rw [redisUpdateWorkFigures, hc]
  have hrw : reportActionImport st workId errorData nowT
      = if (c.import_processed_number + 1 == c.import_expected_number)
            || errorData.isSome
        then some ⟨elUpdate st.works workId
            (reportActionWrite
              (c.import_processed_number + 1 == c.import_expected_number)
              (c.import_processed_number + 1) errorData nowT),
            st.counters.map (fun d => if d.internal_id == workId
              then { d with import_processed_number := d.import_processed_number + 1 }
              else d)⟩
        else some ⟨st.works,
            st.counters.map (fun d => if d.internal_id == workId
              then { d with import_processed_number := d.import_processed_number + 1 }
              else d)⟩ := by
    rw [reportActionImport, hru]
  have F := reportActionWrite_fields
    (c.import_processed_number + 1 == c.import_expected_number)
    (c.import_processed_number + 1) errorData nowT w
  by_cases hcomp : c.import_processed_number + 1 = c.import_expected_number
  · have hb : (c.import_processed_number + 1 == c.import_expected_number) = true :=
      beq_iff_eq.mpr hcomp
    rw [hb] at hrw F
    rw [if_pos (by simp)] at hrw
    refine ⟨_, hrw, fun hne => absurd hcomp hne, ?_⟩
    refine ⟨reportActionWrite true (c.import_processed_number + 1) errorData nowT w,
      ?_, F.2.2.2.2.1, fun _ => ⟨by rw [F.1]; rfl, by rw [F.2.1]; rfl,
        by rw [F.2.2.1]; rfl⟩,
      fun hne => absurd hcomp hne, ?_, ?_⟩
    · show _ ∈ elUpdate st.works workId _
      rw [elUpdate]
      exact List.mem_map.mpr ⟨w, hw, by simp [hid]⟩
    · intro ed hed
      subst hed
      simpa using F.2.2.2.1
    · intro hed
      subst hed
      simpa using F.2.2.2.1
  · have hb : (c.import_processed_number + 1 == c.import_expected_number) = false :=
      beq_eq_false_iff_ne.mpr hcomp
    rw [hb] at hrw F
    cases herrD : errorData with
    | some ed =>
      rw [herrD] at hrw F
      rw [if_pos (by simp)] at hrw
      refine ⟨_, hrw, ?_, ?_⟩
      · intro _ hnone
        exact Option.noConfusion hnone
      refine ⟨reportActionWrite false (c.import_processed_number + 1) (some ed) nowT w,
        ?_, F.2.2.2.2.1, fun hcontra => absurd hcontra hcomp,
        fun _ => ⟨by rw [F.1]; rfl, by rw [F.2.1]; rfl, by rw [F.2.2.1]; rfl⟩,
        ?_, ?_⟩
      · show _ ∈ elUpdate st.works workId _
        rw [elUpdate]
        exact List.mem_map.mpr ⟨w, hw, by simp [hid]⟩
      · intro ed' hed'
        injection hed' with hed'
        subst hed'
        simpa using F.2.2.2.1
      · intro hed
        exact Option.noConfusion hed
    | none =>
      rw [herrD] at hrw
      rw [if_neg (by simp)] at hrw
      refine ⟨_, hrw, fun _ _ => rfl, w, hw, rfl,
        fun hcontra => absurd hcontra hcomp,
        fun _ => ⟨rfl, rfl, rfl⟩, ?_, fun _ => rfl⟩
      intro ed' hed'
      exact Option.noConfusion hed'

theorem reportActionImport_write_spec_witness :
    redisGetWork oneToGoState.counters "w1" = some ⟨"w1", 1, 0⟩ ∧
    waitW ∈ oneToGoState.works ∧
    (∃ st', reportActionImport oneToGoState "w1"
        (some ⟨"boom", "worker-2"⟩) 4 = some st' ∧
      ((⟨"w1", 1, 0⟩ : WorkCounter).import_processed_number + 1
          ≠ (⟨"w1", 1, 0⟩ : WorkCounter).import_expected_number →
        (some (⟨"boom", "worker-2"⟩ : ErrorData)) = none → st'.works = oneToGoState.works) ∧
      ∃ w' ∈ st'.works,
        w'.internal_id = waitW.internal_id ∧
        ((⟨"w1", 1, 0⟩ : WorkCounter).import_processed_number + 1
            = (⟨"w1", 1, 0⟩ : WorkCounter).import_expected_number →
          w'.status = "complete" ∧
          w'.completed_number = (⟨"w1", 1, 0⟩ : WorkCounter).import_processed_number + 1 ∧
          w'.completed_time = some 4) ∧
        ((⟨"w1", 1, 0⟩ : WorkCounter).import_processed_number + 1
            ≠ (⟨"w1", 1, 0⟩ : WorkCounter).import_expected_number →
          w'.status = waitW.status ∧ w'.completed_number = waitW.completed_number ∧
          w'.completed_time = waitW.completed_time) ∧
        (∀ ed, (some (⟨"boom", "worker-2"⟩ : ErrorData)) = some ed →
          w'.errors = waitW.errors
            ++ [{ timestamp := 4, message := ed.error, source := some ed.source }]) ∧
        ((some (⟨"boom", "worker-2"⟩ : ErrorData)) = none → w'.errors = waitW.errors)) :=
  ⟨by decide, by decide,
   reportActionImport_write_spec oneToGoState "w1" (some ⟨"boom", "worker-2"⟩) 4
     ⟨"w1", 1, 0⟩ waitW (by decide) (by decide) (by decide)⟩

/-- C1: at-most-once completion under concurrency.  A run of `n` concurrent
`reportAction` (`reportActionImport`) calls against one job is modelled by
(i) the `n` atomic `incrementAndCompare` results, which the counter store
serializes — so the calls receive, in some order, exactly the results
`actionResults expected p0 n` — and (ii) their job-record writes
(`applyActionEvent`, the per-call atomic update script), applied in an
arbitrary interleaving order over any initial record.  Once `processedCount`
reaches `expectedCount` within the run (`p0 < expected ≤ p0 + n`), exactly
one call receives `isComplete` — so the `status = Complete` transition is
written exactly once — the final record has `status = "complete"` and
`completed_number = expectedCount`, whatever the write order, and no
non-completing call ever touches `status` or `completed_number`. -/
theorem reportAction_completion_at_most_once (events : List ActionEvent)
    (expected p0 : Nat) (w0 : WorkRecord)
    (hperm : (events.map (fun e => (e.isComplete, e.total))).Perm
      (actionResults expected p0 events.length))
    (h1 : p0 < expected) (h2 : expected ≤ p0 + events.length) :
    events.countP (fun e => e.isComplete) = 1 ∧
    (events.foldl applyActionEvent w0).status = "complete" ∧
    (events.foldl applyActionEvent w0).completed_number = expected ∧
    (∀ e ∈ events, e.isComplete = false → ∀ w,
      (applyActionEvent w e).status = w.status ∧
      (applyActionEvent w e).completed_number = w.completed_number) := by
  have hcnt : events.countP (fun e => e.isComplete) = 1 := by
    have hmap : (events.map (fun e => (e.isComplete, e.total))).countP (fun r => r.1)
        = events.countP (fun e => e.isComplete) :=
      List.countP_map _ _ _
    rw [← hmap, hperm.countP_eq, countP_actionResults,
      if_pos ⟨h1, h2⟩]
  have htot : ∀ e ∈ events, e.isComplete = true → e.total = expected := by
    intro e he hc
    have hmem : (e.isComplete, e.total) ∈ actionResults expected p0 events.length :=
      hperm.subset (List.mem_map_of_mem _ he)
    exact actionResults_total hmem hc
  exact ⟨hcnt,
    (foldl_applyActionEvent_one_complete events w0 hcnt htot).1,
    (foldl_applyActionEvent_one_complete events w0 hcnt htot).2,
    fun e _ hne w => applyActionEvent_status_of_not_complete hne⟩

/-- Two racing calls: the first increment misses the boundary, the second
(carrying error data) hits it. -/
def raceEvents : List ActionEvent :=
  [⟨false, 1, none, 3⟩, ⟨true, 2, some ⟨"boom", "worker-2"⟩, 4⟩]

theorem reportAction_completion_at_most_once_witness :
    0 < 2 ∧ 2 ≤ 0 + raceEvents.length ∧
    (raceEvents.countP (fun e => e.isComplete) = 1 ∧
      (raceEvents.foldl applyActionEvent waitW).status = "complete" ∧
      (raceEvents.foldl applyActionEvent waitW).completed_number = 2 ∧
      (∀ e ∈ raceEvents, e.isComplete = false → ∀ w,
        (applyActionEvent w e).status = w.status ∧
        (applyActionEvent w e).completed_number = w.completed_number)) :=
  ⟨by decide, by decide,
   reportAction_completion_at_most_once raceEvents 2 0 waitW
     (by decide) (by decide) (by decide)⟩

/-- C7 (amended): the retention scan (`deleteOldCompletedWorks`) deletes only
jobs of the given connector that match the retention query —
`status = "complete"` with `completed_time` at or before the horizon selected
by connector type (2 days for enrichment connectors, 30 days for all others)
— and in particular never deletes a job whose status is not `complete`,
regardless of that job's age or logged errors.  Deleting *exactly* the
matching set can fail when more than 500 eligible jobs share one
`completed_time` (see the tie counterexample), so exactness is weakened to
this one-sided guarantee. -/
theorem deleteOldCompletedWorks_amended (connector : Connector) (nowT : Nat)
    (st : EngineState)
    (hnd : (st.works.map (fun w => w.internal_id)).Nodup) :
    (∀ w ∈ st.works, w.status ≠ "complete" →
       w ∈ (deleteOldCompletedWorks connector nowT st).works) ∧
    (∀ w ∈ st.works, w ∉ (deleteOldCompletedWorks connector nowT st).works →
       retentionMatches connector.id (rangeToKeep connector nowT) w = true) := by
  constructor
  · intro w hw hne
    rw [deleteOldCompletedWorks, deleteOldLoop]
    apply deleteOldLoopFuel_keeps _ _ _ hnd w hw
    have hb : (w.status == "complete") = false := beq_eq_false_iff_ne.mpr hne
    simp [retentionMatches, hb]
  · intro w hw hnotin
    by_contra hnm
    have hfalse : retentionMatches connector.id (rangeToKeep connector nowT) w = false := by
      cases h : retentionMatches connector.id (rangeToKeep connector nowT) w
      · rfl
      · exact absurd h hnm
    refine hnotin ?_
    rw [deleteOldCompletedWorks, deleteOldLoop]
    exact deleteOldLoopFuel_keeps _ _ _ hnd w hw hfalse

theorem deleteOldCompletedWorks_amended_witness :
    (retState.works.map (fun w => w.internal_id)).Nodup ∧
    retW2 ∈ (deleteOldCompletedWorks impConn (40 * dayMs) retState).works :=
  ⟨by decide,
   (deleteOldCompletedWorks_amended impConn (40 * dayMs) retState (by decide)).1
     retW2 (by decide) (by decide)⟩

set_option maxRecDepth 8000 in
/-- C7 counterexample: 501 completed, long-expired jobs of one enrichment
connector all share one `completed_time`.  The scan's first page returns 500
of them (page size 500), deletes them, and advances the `search_after` cursor
to the shared sort key; the second page — keyset-constrained strictly past the
cursor — is empty, so the loop terminates and one job that matches the
retention query is left behind: the scan does not delete exactly the matching
jobs. -/
theorem deleteOldCompletedWorks_tie_cex :
    (deleteOldCompletedWorks tieConn (10 * dayMs) tieState).works = [tieW 500] ∧
    tieW 500 ∈ tieState.works ∧
    retentionMatches tieConn.id (rangeToKeep tieConn (10 * dayMs)) (tieW 500) = true := by
  have hhz : rangeToKeep tieConn (10 * dayMs) = 8 * dayMs := by
    rw [rangeToKeep,
      if_pos (show (tieConn.connector_type == CONNECTOR_INTERNAL_ENRICHMENT) = true
        from beq_self_eq_true _)]
    norm_num [dayMs]
  have hm : ∀ i : Nat, retentionMatches tieConn.id (8 * dayMs) (tieW i) = true := by
    intro i
    have hb : retentionMatches tieConn.id (8 * dayMs) (tieW i)
        = ((("c" : String) == "c") && (("complete" : String) == "complete")
            && decide (5 ≤ 8 * dayMs)) := rfl
    rw [hb]
    decide
  have hworks : tieState.works = (List.range 501).map tieW := rfl
  have hfil : tieState.works.filter (fun w =>
      retentionMatches tieConn.id (8 * dayMs) w
        && (((0 : Nat) == 0) || decide (completedKey w < 0))) = tieState.works := by
    apply List.filter_eq_self.mpr
    intro a ha
    obtain ⟨i, _, rfl⟩ := List.mem_map.mp (hworks ▸ ha)
    rw [hm i]
    rfl
  have hsort : sortDescBy completedKey tieState.works = tieState.works := by
    apply sortDescBy_const (c := 5)
    intro x hx
    obtain ⟨i, _, rfl⟩ := List.mem_map.mp (hworks ▸ hx)
    rfl
  have hpage1 : retentionPage tieConn.id (8 * dayMs) 0 tieState.works
      = (List.range 500).map tieW := by
    have hbody : retentionPage tieConn.id (8 * dayMs) 0 tieState.works
        = (sortDescBy completedKey (tieState.works.filter (fun w =>
            retentionMatches tieConn.id (8 * dayMs) w
              && (((0 : Nat) == 0) || decide (completedKey w < 0))))).take 500 := rfl
    rw [hbody, hfil, hsort, hworks, ← List.map_take, List.take_range]
    norm_num
  have hne1 : (List.range 500).map tieW ≠ [] := by simp
  have hlast : completedKey (((List.range 500).map tieW).getLast hne1) = 5 := by
    obtain ⟨i, _, heq⟩ := List.mem_map.mp (List.getLast_mem hne1)
    rw [← heq]
    rfl
  have hr501 : List.range 501 = List.range 500 ++ [500] := List.range_succ 500
  have hdel : elDeleteInstanceIds tieState.works
      (((List.range 500).map tieW).map (fun w => w.internal_id)) = [tieW 500] := by
    rw [elDeleteInstanceIds, hworks, hr501, List.map_append, List.filter_append]
    have hleft : (((List.range 500).map tieW).filter (fun w =>
        !((((List.range 500).map tieW).map (fun w => w.internal_id)).contains
          w.internal_id))) = [] := by
      apply List.filter_eq_nil_iff.mpr
      intro a ha
      obtain ⟨j, hj, rfl⟩ := List.mem_map.mp ha
      rw [contains_of_mem (List.mem_map_of_mem _ (List.mem_map_of_mem _ hj))]
      simp
    have hnotin : ¬ (tieW 500).internal_id
        ∈ ((List.range 500).map tieW).map (fun w => w.internal_id) := by
      intro hmem
      rw [List.map_map] at hmem
      obtain ⟨k, hk, heq⟩ := List.mem_map.mp hmem
      have heq' : String.mk (List.replicate k 'a')
          = String.mk (List.replicate 500 'a') := heq
      have hlen := congrArg (fun s : String => s.data.length) heq'
      simp at hlen
      rw [List.mem_range] at hk
      omega
    have hright : ((List.map tieW [500]).filter (fun w =>
        !((((List.range 500).map tieW).map (fun w => w.internal_id)).contains
          w.internal_id))) = [tieW 500] := by
      apply List.filter_eq_self.mpr
      intro a ha
      have ha' : a = tieW 500 := by simpa using ha
      subst ha'
      exact not_contains_iff.mpr hnotin
    rw [hleft, hright]
    rfl
  have hcnt : redisDeleteWork tieState.counters
      (((List.range 500).map tieW).map (fun w => w.internal_id)) = [] := rfl
  have hpage2 : retentionPage tieConn.id (8 * dayMs) 5
      ((⟨[tieW 500], []⟩ : EngineState).works) = [] := by
    have hbody : retentionPage tieConn.id (8 * dayMs) 5
        ((⟨[tieW 500], []⟩ : EngineState).works)
        = (sortDescBy completedKey ([tieW 500].filter (fun w =>
            retentionMatches tieConn.id (8 * dayMs) w
              && (((5 : Nat) == 0) || decide (completedKey w < 5))))).take 500 := rfl
    rw [hbody]
    have hf : [tieW 500].filter (fun w =>
        retentionMatches tieConn.id (8 * dayMs) w
          && (((5 : Nat) == 0) || decide (completedKey w < 5))) = [] := by
      apply List.filter_eq_nil_iff.mpr
      intro a ha
      rw [List.mem_singleton.mp ha]
      rw [hm 500]
      decide
    rw [hf]
    rfl
  have hfuel : tieState.works.length = 501 := by rw [hworks]; simp
  have hloop : deleteOldCompletedWorks tieConn (10 * dayMs) tieState
      = (⟨[tieW 500], []⟩ : EngineState) := by
    rw [deleteOldCompletedWorks, deleteOldLoop, hhz, hfuel]
    rw [deleteOldLoopFuel_page_ne_nil hpage1 hne1]
    rw [hlast, hdel, hcnt]
    exact deleteOldLoopFuel_page_nil hpage2
  refine ⟨by rw [hloop], ?_, ?_⟩
  · rw [hworks]
    exact List.mem_map_of_mem _ (List.mem_range.mpr (by norm_num))
  · rw [hhz]
    exact hm 500

end WorkEngine
